import Mathlib

/-!
Verification development for the SSO_Downloader pipeline.

The Python sources under `frontend/scripts/` are shallowly embedded here:

* `sso_volume.py`   — estimated-volume parsing (`parse_est_volume`,
  `_BUCKET_MAPPINGS`, `_bucket_label`, `enrich_est_volume_fields`);
* `sso_transform.py` — record assembly (`normalize_sso_record`,
  `simplify_permittee_name`, `PERMITTEE_MAP`, coercion helpers);
* `SSO_Parse.py`    — batch deduplication (`dedupe_keep_newest`) and
  waterway disambiguation (`disambiguate_waterways`, `utility_short_name`).

Python strings are modelled over ASCII: `\s`, `str.strip`, `str.lower` and
friends are implemented for the ASCII repertoire, which covers every string
constant and every regular expression in the embedded sources.  Fallible
Python operations (`int(...)` on a malformed string, `datetime.fromtimestamp`
out of range) are modelled in an `Except` monad mirroring which call sites
catch which exception classes.
-/

deriving instance DecidableEq for Except

namespace SSO

/-- Python exception classes that the embedded code can raise or catch. -/
inductive PyErr where
  | valueError
  | typeError
  | osError
  | overflowError
  deriving DecidableEq, Repr

/-- ASCII whitespace recognised by Python's `str.strip` and the regex `\s`. -/
def isPyWs (c : Char) : Bool :=
  c = ' ' || c = '\t' || c = '\n' || c = '\r' || c = '\x0b' || c = '\x0c'

/-- The regex `\\d` over ASCII: a decimal digit, via character codes. -/
def isDigitPy (c : Char) : Bool := 48 ≤ c.toNat && c.toNat ≤ 57

/-- One character of `re.fullmatch(r"[\\d,\\s]+", s)`. -/
def isNumLike (c : Char) : Bool := isDigitPy c || c = ',' || isPyWs c

/-- Python `str.strip()` on ASCII whitespace. -/
def pyStrip (s : String) : String :=
  String.mk (((s.toList.dropWhile isPyWs).reverse.dropWhile isPyWs).reverse)

/-- ASCII `str.lower` on a single character. -/
def toLowerPy (c : Char) : Char :=
  if 65 ≤ c.toNat ∧ c.toNat ≤ 90 then Char.ofNat (c.toNat + 32) else c

/-- ASCII `str.upper` on a single character. -/
def toUpperPy (c : Char) : Char :=
  if 97 ≤ c.toNat ∧ c.toNat ≤ 122 then Char.ofNat (c.toNat - 32) else c

/-- ASCII `str.lower`. -/
def lowerStr (s : String) : String := String.mk (s.toList.map toLowerPy)

/-- ASCII `str.upper`. -/
def upperStr (s : String) : String := String.mk (s.toList.map toUpperPy)

/-- True when `p` literally starts `s` (Python `str.startswith`). -/
def strHasPre (p s : String) : Bool := List.isPrefixOf p.toList s.toList

/-- Python `str.endswith`. -/
def strHasSuf (p s : String) : Bool := List.isSuffixOf p.toList s.toList

/-- Containment of one character list in another at any position. -/
def listIsSub (needle : List Char) : List Char → Bool
  | [] => needle.isEmpty
  | c :: t => List.isPrefixOf needle (c :: t) || listIsSub needle t

/-- Substring containment, Python's `needle in haystack`. -/
def strContains (needle haystack : String) : Bool :=
  listIsSub needle.toList haystack.toList

/-- Remove every comma: `s.replace(",", "")`. -/
def stripCommas (s : String) : String := String.mk (s.toList.filter (· ≠ ','))

/-- Value of a string of decimal digits. -/
def digitsVal (l : List Char) : Int :=
  l.foldl (fun a c => 10 * a + (c.toNat - 48 : Int)) 0

/-- Python `int(s)` for the unsigned shapes reachable in this code base
(every call site feeds it digits, commas-already-removed, and whitespace —
signs never occur): optional surrounding whitespace, then one or more
digits; anything else raises `ValueError` (in particular `int("")`). -/
def pyInt (s : String) : Except PyErr Int :=
  let t := (pyStrip s).toList
  if t ≠ [] ∧ t.all isDigitPy then .ok (digitsVal t) else .error .valueError

/-! ### Association lists standing in for Python dicts -/

/-- Dict lookup (`d.get(k)` without default). -/
def dlookup {α : Type} : List (String × α) → String → Option α
  | [], _ => none
  | (k', v) :: t, k => if k' = k then some v else dlookup t k

/-- Dict assignment `d[k] = v`: replace in place if the key exists (keeping
its position, as Python dicts do), otherwise append. -/
def dictSet {α : Type} (m : List (String × α)) (k : String) (v : α) : List (String × α) :=
  if (m.map Prod.fst).contains k then
    m.map (fun p => if p.1 = k then (k, v) else p)
  else
    m ++ [(k, v)]

/-! ## `sso_volume.py` -/

/-- The helper `_normalize_raw_value`: drop all whitespace, lowercase. -/
def normalizeRawValue (s : String) : String :=
  String.mk ((s.toList.filter (fun c => ¬ isPyWs c)).map toLowerPy)

/-- The dict `_BUCKET_MAPPINGS`, in insertion order. -/
def BUCKET_MAPPINGS : List (String × (Int × Int)) :=
  [ ("<=1,0", (0, 1000)),
    ("<=1,000", (0, 1000)),
    ("<=1000", (0, 1000)),
    ("1,000<gall", (1000, 10000)),
    ("1000<gall", (1000, 10000)),
    ("10,000<gall", (10000, 25000)),
    ("10000<gall", (10000, 25000)),
    ("25,000<gall", (25000, 50000)),
    ("25000<gall", (25000, 50000)),
    ("50,000<gall", (50000, 75000)),
    ("50000<gall", (50000, 75000)),
    ("75,000<gall", (75000, 100000)),
    ("75000<gall", (75000, 100000)),
    ("75,000<gallo", (75000, 100000)),
    ("100,000<gall", (100000, 250000)),
    ("100000<gall", (100000, 250000)),
    ("250,000<gall", (250000, 500000)),
    ("250000<gall", (250000, 500000)),
    ("500,000<gall", (500000, 750000)),
    ("500000<gall", (500000, 750000)),
    ("750,000<gall", (750000, 1000000)),
    ("750,000<gallo", (750000, 1000000)),
    ("750000<gall", (750000, 1000000)) ]

/-- Comma-group a digit list given in reverse order (units first). -/
def commaGroupRev : List Char → Nat → List Char
  | [], _ => []
  | c :: rest, k =>
    if k = 3 ∧ rest ≠ [] then c :: ',' :: commaGroupRev rest 1
    else c :: commaGroupRev rest (k + 1)

/-- Python's `f"{n:,}"` formatting for a nonnegative integer. -/
def fmtComma (n : Int) : String :=
  let ds := (toString n.natAbs).toList
  let grouped := (commaGroupRev ds.reverse 1).reverse
  if n < 0 then String.mk ('-' :: grouped) else String.mk grouped

/-- The helper `_bucket_label`. -/
def bucketLabel (lower : Int) (upper : Option Int) : String :=
  match upper with
  | none => "≥ " ++ fmtComma lower
  | some u => if lower = 0 then "0 - " ++ fmtComma u else fmtComma lower ++ " - " ++ fmtComma u

/-- The scan of `re.findall(r"\d[\d,]*", s)`; `fuel` bounds the iteration
count (each step consumes at least one character, so `length + 1` suffices
and the `0` case is unreachable). -/
def findNumTokensF : Nat → List Char → List (List Char)
  | 0, _ => []
  | _ + 1, [] => []
  | fuel + 1, c :: rest =>
    if isDigitPy c then
      (c :: rest.takeWhile (fun d => isDigitPy d ∨ d = ',')) ::
        findNumTokensF fuel (rest.dropWhile (fun d => isDigitPy d ∨ d = ','))
    else
      findNumTokensF fuel rest

/-- The tokens produced by `re.findall(r"\d[\d,]*", s)`. -/
def findNumTokens (l : List Char) : List (List Char) := findNumTokensF (l.length + 1) l

/-- Exact-key bucket lookup followed by the insertion-order `startswith` scan.
`parse_est_volume`'s two bucket branches return the identical expression
`upper, True, _bucket_label(lower, upper)`, so they are folded through this
one lookup. -/
def findBucket (norm : String) : Option (Int × Int) :=
  match dlookup BUCKET_MAPPINGS norm with
  | some b => some b
  | none =>
    match BUCKET_MAPPINGS.find? (fun e => strHasPre e.1 norm) with
    | some e => some e.2
    | none => none

/-- The raw values `parse_est_volume` can receive (Python is dynamically
typed; `None`, strings, numbers, booleans and datetimes all occur). -/
inductive PyValue where
  | none
  | str (s : String)
  | int (n : Int)
  | float (q : ℚ)
  | bool (b : Bool)
  | dt (y mo d hh mi ss : Nat)
  deriving DecidableEq, Repr

/-- Python's `repr`/`str` of a float, for the rationals our model stores:
integral values print with a trailing `.0`; other values print up to six
fractional digits (a modelling choice — no embedded code path inspects it). -/
def floatRepr (q : ℚ) : String :=
  let sign := if q < 0 then "-" else ""
  let a := |q|
  let ip := a.num / (a.den : Int)
  let frac := a - (ip : ℚ)
  let digits := (Nat.toDigits 10 ((frac * 1000000).floor.toNat)).map id
  let padded := List.replicate (6 - digits.length) '0' ++ digits
  let trimmed := (padded.reverse.dropWhile (· = '0')).reverse
  let fracStr := if trimmed = [] then "0" else String.mk trimmed
  sign ++ toString ip.natAbs ++ "." ++ fracStr

/-- Python `str(v)`. -/
def pyStr : PyValue → String
  | .none => "None"
  | .str s => s
  | .int n => toString n
  | .float q => floatRepr q
  | .bool b => if b then "True" else "False"
  | .dt y mo d hh mi ss =>
      toString y ++ "-" ++ toString mo ++ "-" ++ toString d ++ " " ++
      toString hh ++ ":" ++ toString mi ++ ":" ++ toString ss

/-- The function `parse_est_volume` from `sso_volume.py`.  The unguarded `int(...)` on the
purely-digits/commas/whitespace branch is the one call that can raise. -/
def parse_est_volume (raw : PyValue) : Except PyErr (Option Int × Bool × Option String) :=
  match raw with
  | .none => .ok (none, false, none)
  | _ =>
    let raw_str := pyStrip (pyStr raw)
    if raw_str = "" then .ok (none, false, none)
    else if raw_str.toList.all isNumLike then
      match pyInt (stripCommas raw_str) with
      | .error e => .error e
      | .ok n => .ok (some n, false, none)
    else
      match findBucket (normalizeRawValue raw_str) with
      | some (lower, upper) => .ok (some upper, true, some (bucketLabel lower (some upper)))
      | none =>
        match (findNumTokens raw_str.toList).mapM
            (fun tok => pyInt (String.mk (tok.filter (· ≠ ',')))) with
        | .error e => .error e
        | .ok (lower :: upper :: _) => .ok (some upper, true, some (bucketLabel lower (some upper)))
        | .ok [lower] => .ok (some lower, true, some (bucketLabel lower none))
        | .ok [] => .ok (none, true, some raw_str)

/-- The function `enrich_est_volume_fields`: parse `est_volume` and write the three
structured fields back onto the record dict. -/
def enrich_est_volume_fields (record : List (String × PyValue)) :
    Except PyErr (List (String × PyValue)) :=
  match parse_est_volume ((dlookup record "est_volume").getD .none) with
  | .error e => .error e
  | .ok (gal, isRange, label) =>
    .ok (dictSet
      (dictSet
        (dictSet record "est_volume_gal" (match gal with | some n => .int n | none => .none))
        "est_volume_is_range" (.str (if isRange then "Y" else "N")))
      "est_volume_range_label" (match label with | some s => .str s | none => .none))

/-! ## `sso_transform.py` and its helpers -/

/-- Python datetime values: either an epoch-based timestamp (result of
`datetime.fromtimestamp`) or a broken-down calendar value (result of
`strptime`/`fromisoformat`).  No embedded code path compares the two. -/
inductive PyDateTime where
  | epoch (q : ℚ)
  | ymd (y mo d hh mi ss : Nat)
  deriving DecidableEq, Repr

/-- Python truthiness of the values our model can hold. -/
def pyTruthy : PyValue → Bool
  | .none => false
  | .str s => s ≠ ""
  | .int n => n ≠ 0
  | .float q => q ≠ 0
  | .bool b => b
  | .dt .. => true

/-- Python's `a or b`. -/
def pyOr (a b : PyValue) : PyValue := if pyTruthy a then a else b

/-- Python `float(s)`: optional sign, digits with an optional point, optional
exponent.  Malformed input is the `ValueError` case, returned as `none`
because every embedded caller catches it. -/
def parseFloat (s : String) : Option ℚ :=
  let t0 := (pyStrip s).toList
  let sgn : ℚ := match t0 with | '-' :: _ => -1 | _ => 1
  let t := match t0 with | '-' :: r => r | '+' :: r => r | _ => t0
  let ip := t.takeWhile isDigitPy
  let t1 := t.dropWhile isDigitPy
  let fp := match t1 with | '.' :: r => r.takeWhile isDigitPy | _ => []
  let t2 := match t1 with | '.' :: r => r.dropWhile isDigitPy | _ => t1
  if ip = [] ∧ fp = [] then none
  else
    let base : ℚ := (digitsVal ip : ℚ) + (digitsVal fp : ℚ) / ((10 : ℚ) ^ fp.length)
    match t2 with
    | [] => some (sgn * base)
    | e :: r =>
      if e = 'e' ∨ e = 'E' then
        let neg := match r with | '-' :: _ => true | _ => false
        let r1 := match r with | '-' :: rr => rr | '+' :: rr => rr | _ => r
        let ed := r1.takeWhile isDigitPy
        if ed = [] ∨ r1.dropWhile isDigitPy ≠ [] then none
        else
          let ev := (digitsVal ed).toNat
          some (sgn * base * (if neg then 1 / (10 : ℚ) ^ ev else (10 : ℚ) ^ ev))
      else none

/-- The helper `_coerce_str`. -/
def coerce_str : PyValue → Option String
  | .none => none
  | v => some (pyStr v)

/-- The helper `_coerce_float`: `float(value)` with `TypeError`/`ValueError` mapped to
`None`. -/
def coerce_float : PyValue → Option ℚ
  | .none => none
  | .int n => some (n : ℚ)
  | .float q => some q
  | .bool b => some (if b then 1 else 0)
  | .str s => parseFloat s
  | .dt .. => none

/-- Python `str.isdigit` (ASCII). -/
def pyIsdigit (s : String) : Bool := s ≠ "" && s.toList.all isDigitPy

/-- Python `datetime.fromtimestamp` with its platform range check; an out-of-range
value raises (`OSError`/`OverflowError`/`ValueError`), which the embedded
caller catches, hence `none`. -/
def fromtimestampModel (q : ℚ) : Option PyDateTime :=
  if (-62135596800 : ℚ) ≤ q ∧ q < (253402300800 : ℚ) then some (.epoch q) else none

/-- Gregorian leap year. -/
def isLeap (y : Nat) : Bool := y % 4 = 0 && (y % 100 ≠ 0 || y % 400 = 0)

/-- Days in a month (1-indexed). -/
def daysInMonth (y m : Nat) : Nat :=
  if m = 2 then (if isLeap y then 29 else 28)
  else if m = 4 ∨ m = 6 ∨ m = 9 ∨ m = 11 then 30 else 31

def digitVal (c : Char) : Nat := c.toNat - 48

/-- strptime's `%m` token: `1[0-2]|0[1-9]|[1-9]`. -/
def parseMonthTok : List Char → Option (Nat × List Char)
  | '1' :: b :: rest =>
    if b = '0' ∨ b = '1' ∨ b = '2' then some (10 + digitVal b, rest)
    else some (1, b :: rest)
  | '0' :: b :: rest =>
    if isDigitPy b ∧ b ≠ '0' then some (digitVal b, rest) else none
  | a :: rest => if isDigitPy a ∧ a ≠ '0' then some (digitVal a, rest) else none
  | [] => none

/-- strptime's `%d` token: `3[01]|[12]\d|0[1-9]|[1-9]`. -/
def parseDayTok : List Char → Option (Nat × List Char)
  | '3' :: b :: rest =>
    if b = '0' ∨ b = '1' then some (30 + digitVal b, rest) else some (3, b :: rest)
  | '1' :: b :: rest =>
    if isDigitPy b then some (10 + digitVal b, rest) else some (1, b :: rest)
  | '2' :: b :: rest =>
    if isDigitPy b then some (20 + digitVal b, rest) else some (2, b :: rest)
  | '0' :: b :: rest =>
    if isDigitPy b ∧ b ≠ '0' then some (digitVal b, rest) else none
  | a :: rest => if isDigitPy a ∧ a ≠ '0' then some (digitVal a, rest) else none
  | [] => none

/-- strptime's `%H` token: `2[0-3]|[0-1]\d|\d`. -/
def parseHourTok : List Char → Option (Nat × List Char)
  | '2' :: b :: rest =>
    if b = '0' ∨ b = '1' ∨ b = '2' ∨ b = '3' then some (20 + digitVal b, rest)
    else some (2, b :: rest)
  | '0' :: b :: rest =>
    if isDigitPy b then some (digitVal b, rest) else some (0, b :: rest)
  | '1' :: b :: rest =>
    if isDigitPy b then some (10 + digitVal b, rest) else some (1, b :: rest)
  | a :: rest => if isDigitPy a then some (digitVal a, rest) else none
  | [] => none

/-- strptime's `%M`/`%S` token: `[0-5]\d|\d`. -/
def parseMinSecTok : List Char → Option (Nat × List Char)
  | a :: b :: rest =>
    if isDigitPy a ∧ digitVal a ≤ 5 ∧ isDigitPy b then some (10 * digitVal a + digitVal b, rest)
    else if isDigitPy a then some (digitVal a, b :: rest)
    else none
  | [a] => if isDigitPy a then some (digitVal a, []) else none
  | [] => none

/-- strptime's `%Y` token: exactly four digits. -/
def parseYearTok : List Char → Option (Nat × List Char)
  | a :: b :: c :: d :: rest =>
    if isDigitPy a ∧ isDigitPy b ∧ isDigitPy c ∧ isDigitPy d then
      some (1000 * digitVal a + 100 * digitVal b + 10 * digitVal c + digitVal d, rest)
    else none
  | _ => none

/-- Python `datetime.strptime(s, "%Y-%m-%d")`, including `datetime(...)`'s calendar
validation; failure is the caught `ValueError`. -/
def strptimeYMD (s : String) : Option PyDateTime := do
  let (y, r1) ← parseYearTok s.toList
  let r2 ← match r1 with | '-' :: r => some r | _ => none
  let (mo, r3) ← parseMonthTok r2
  let r4 ← match r3 with | '-' :: r => some r | _ => none
  let (d, r5) ← parseDayTok r4
  if r5 = [] ∧ 1 ≤ y ∧ d ≤ daysInMonth y mo then some (.ymd y mo d 0 0 0) else none

/-- Python `datetime.strptime(s, "%Y-%m-%d %H:%M:%S")`. -/
def strptimeYMDHMS (s : String) : Option PyDateTime := do
  let (y, r1) ← parseYearTok s.toList
  let r2 ← match r1 with | '-' :: r => some r | _ => none
  let (mo, r3) ← parseMonthTok r2
  let r4 ← match r3 with | '-' :: r => some r | _ => none
  let (d, r5) ← parseDayTok r4
  let r6 ← match r5 with | ' ' :: r => some r | _ => none
  let (hh, r7) ← parseHourTok r6
  let r8 ← match r7 with | ':' :: r => some r | _ => none
  let (mi, r9) ← parseMinSecTok r8
  let r10 ← match r9 with | ':' :: r => some r | _ => none
  let (ss, r11) ← parseMinSecTok r10
  if r11 = [] ∧ 1 ≤ y ∧ d ≤ daysInMonth y mo then some (.ymd y mo d hh mi ss) else none

def parse2Digit : List Char → Option (Nat × List Char)
  | a :: b :: rest => if isDigitPy a ∧ isDigitPy b then some (10 * digitVal a + digitVal b, rest) else none
  | _ => none

/-- Python `datetime.fromisoformat` (strict `YYYY-MM-DD[*HH:MM[:SS]]` shape, as in
CPython ≤ 3.10; fractions and offsets are out of this model's input space). -/
def fromisoformatModel (s : String) : Option PyDateTime := do
  let (y, r1) ← parseYearTok s.toList
  let r2 ← match r1 with | '-' :: r => some r | _ => none
  let (mo, r3) ← parse2Digit r2
  let r4 ← match r3 with | '-' :: r => some r | _ => none
  let (d, r5) ← parse2Digit r4
  let core ← match r5 with
    | [] => some (PyDateTime.ymd y mo d 0 0 0)
    | _ :: r6 => do
      let (hh, r7) ← parse2Digit r6
      let r8 ← match r7 with | ':' :: r => some r | _ => none
      let (mi, r9) ← parse2Digit r8
      match r9 with
      | [] => some (PyDateTime.ymd y mo d hh mi 0)
      | ':' :: r10 => do
        let (ss, r11) ← parse2Digit r10
        if r11 = [] ∧ hh ≤ 23 ∧ mi ≤ 59 ∧ ss ≤ 59 then some (PyDateTime.ymd y mo d hh mi ss)
        else none
      | _ => none
  match core with
  | .ymd y mo d hh mi ss =>
    if 1 ≤ y ∧ 1 ≤ mo ∧ mo ≤ 12 ∧ 1 ≤ d ∧ d ≤ daysInMonth y mo ∧ hh ≤ 23 ∧ mi ≤ 59 then
      some (.ymd y mo d hh mi ss)
    else none
  | _ => none

/-- The numeric branch of `_parse_datetime`: ArcGIS epoch values, with the
milliseconds heuristic, wrapped by the `try` around `fromtimestamp`. -/
def parseDatetimeNumeric (q : ℚ) : Option PyDateTime :=
  fromtimestampModel (if q > (10000000000 : ℚ) then q / 1000 else q)

/-- The helper `_parse_datetime` from `sso_transform.py`. -/
def parse_datetime : PyValue → Option PyDateTime
  | .none => none
  | .dt y mo d hh mi ss => some (.ymd y mo d hh mi ss)
  | .int n => parseDatetimeNumeric (n : ℚ)
  | .float q => parseDatetimeNumeric q
  | .bool b => parseDatetimeNumeric (if b then 1 else 0)
  | .str s =>
    if pyIsdigit s then parseDatetimeNumeric ((digitsVal s.toList : Int) : ℚ)
    else match strptimeYMD s with
    | some dtv => some dtv
    | none =>
      match strptimeYMDHMS s with
      | some dtv => some dtv
      | none => fromisoformatModel s

/-! ### `_normalize_receiving_water_name` (`scripts/sso_analytics.py`) -/

def RECEIVING_WATER_KEYWORDS : List String :=
  ["river", "creek", "bay", "branch", "lake", "pond", "gully", "lagoon",
   "swamp", "stream", "ditch", "canal", "cove", "slough", "harbor"]

def CONTAINED_LABEL : String := "Contained / did not reach state waters"

def CONTAINED_PHRASES : List String :=
  ["ground absorbed", "backup into building", "backup into building/residence",
   "contained", "did not reach us waters", "did not reach waters"]

/-- The helper `_normalize_receiving_water_name`. -/
def normalize_receiving_water_name (raw : PyValue) : Option String :=
  if ¬ pyTruthy raw then none
  else
    let value := pyStrip (pyStr raw)
    if value = "" then none
    else
      let parts0 := (value.splitOn ";").filterMap
        (fun p => if p ≠ "" ∧ pyStrip p ≠ "" then some (pyStrip p) else Option.none)
      let parts := if parts0 = [] then [value] else parts0
      match parts.find? (fun part =>
          RECEIVING_WATER_KEYWORDS.any (fun kw => strContains kw (lowerStr part))) with
      | some part => some part
      | none =>
        if CONTAINED_PHRASES.any (fun ph => strContains ph (lowerStr value)) then
          some CONTAINED_LABEL
        else
          match parts with
          | p :: _ => some p
          | [] => some value

/-! ### `simplify_permittee_name` and `PERMITTEE_MAP` -/

/-- The dict `PERMITTEE_MAP`: canonical alias table with lowercase keys. -/
def PERMITTEE_MAP : List (String × String) :=
  [ ("alsi9902013", "Baldwin County Sewer Service"),
    ("al0049859", "Baldwin County Sewer Service"),
    ("south alabama utilities services, inc.", "Baldwin County Sewer Service"),
    ("south alabama utility service, inc wwtp", "Baldwin County Sewer Service"),
    ("south alabama utilities", "Baldwin County Sewer Service"),
    ("baldwin county sewer services", "Baldwin County Sewer Service"),
    ("baldwin county sewer service, llc", "Baldwin County Sewer Service"),
    ("board of water and sewer commissioners of the city of mobile", "MAWSS"),
    ("board of water and sewer commissioners of the city of mobile alabama", "MAWSS"),
    ("board of water and sewer commissioners of the city of mobile - prichard", "MAWSS"),
    ("mobile area water and sewer system", "MAWSS"),
    ("mobile area water & sewer", "MAWSS"),
    ("mobile area water and sewer", "MAWSS"),
    ("mobile water and sewer", "MAWSS"),
    ("the board of water and sewer commissioners of the city of mobile", "MAWSS"),
    ("the water works & sewer board of the city of anniston", "Utilities of Anniston"),
    ("the water works and sewer board of the city of anniston", "Utilities of Anniston"),
    ("the water works & sewer board of the city of gadsden", "Utilities of Gadsden") ]

/-- Uppercase ASCII letter. -/
def isUpperAZ (c : Char) : Bool := 65 ≤ c.toNat && c.toNat ≤ 90

/-- Model of `re.sub(r",\s*[A-Z]{2}$", "", s)`: strip a trailing state suffix. -/
def stripStateSuffix (s : String) : String :=
  match s.toList.reverse with
  | c2 :: c1 :: rest =>
    if isUpperAZ c1 ∧ isUpperAZ c2 then
      match rest.dropWhile isPyWs with
      | ',' :: rr => String.mk rr.reverse
      | _ => s
    else s
  | _ => s

/-- One piece of an anchored boilerplate pattern: a case-insensitive literal
(single spaces are the literal spaces of the regex) or the `(?:and|&)`
alternation. -/
inductive PatSeg where
  | lit (w : String)
  | andAmp
  deriving Repr

/-- Match the pattern segments at the head of `cs` (case-insensitively),
returning the remainder. -/
def matchSegs : List PatSeg → List Char → Option (List Char)
  | [], cs => some cs
  | .lit w :: rest, cs =>
    if (cs.take w.toList.length).map toLowerPy = w.toList.map toLowerPy ∧
        w.toList.length ≤ cs.length then
      matchSegs rest (cs.drop w.toList.length)
    else none
  | .andAmp :: rest, cs =>
    match
      (if (cs.take 3).map toLowerPy = ['a', 'n', 'd'] ∧ 3 ≤ cs.length then
        matchSegs rest (cs.drop 3)
      else none) with
    | some r => some r
    | none =>
      match cs with
      | '&' :: cs' => matchSegs rest cs'
      | _ => none

/-- Match an anchored boilerplate pattern (segments followed by `\s+`) at the
head of `cs`; on success return what `re.sub(pattern, "", ...)` would keep. -/
def matchPat (p : List PatSeg) (cs : List Char) : Option (List Char) :=
  match matchSegs p cs with
  | some rem =>
    if rem.takeWhile isPyWs = ([] : List Char) then none
    else some (rem.dropWhile isPyWs)
  | none => none

/-- The ordered boilerplate pattern list of `simplify_permittee_name`
(every pattern is matched with `re.IGNORECASE` and ends in `\s+`). -/
def PERMITTEE_PATTERNS : List (List PatSeg) :=
  [ [.lit "The Utilities Board of the City of"],
    [.lit "The Utilities Board of the Town of"],
    [.lit "The Water Works ", .andAmp, .lit " Sewer Board of the City of"],
    [.lit "The Water Works and Sanitary Sewer Board of"],
    [.lit "Utilities Board of the City of"],
    [.lit "Board of Water and Sewer Commissioners of the City of"],
    [.lit "Water Works ", .andAmp, .lit " Sewer Board of the City of"],
    [.lit "Utilities Board of the Town of"],
    [.lit "Utilities Board of"],
    [.lit "Water Works ", .andAmp, .lit " Sewer Board of"],
    [.lit "City of"],
    [.lit "Town of"],
    [.lit "Village of"],
    [.lit "The Utilities Board of"] ]

/-- Model of `re.sub(r"^[Tt]he\s+", "", s)` (no IGNORECASE here: only `The`/`the`). -/
def dropLeadingThe (s : String) : String :=
  match s.toList with
  | t :: 'h' :: 'e' :: rest =>
    if (t = 'T' ∨ t = 't') ∧ rest.takeWhile isPyWs ≠ ([] : List Char) then
      String.mk (rest.dropWhile isPyWs)
    else s
  | _ => s

/-- The function `simplify_permittee_name` from `sso_transform.py`. -/
def simplify_permittee_name (name : String) : String :=
  if name = "" then name
  else
    match dlookup PERMITTEE_MAP (lowerStr (pyStrip name)) with
    | some mapped => mapped
    | none =>
      let cleaned := stripStateSuffix (pyStrip name)
      if strContains "Mobile Area Water and Sewer System" cleaned then "MAWSS"
      else
        match PERMITTEE_PATTERNS.findSome? (fun p => matchPat p cleaned.toList) with
        | some rem =>
          let entity := dropLeadingThe (pyStrip (String.mk rem))
          if strHasSuf "utilities" (lowerStr entity) then entity
          else "Utilities of " ++ entity
        | none => cleaned

/-- The `SSORecord` dataclass from `sso_schema.py` (fields `normalize_sso_record`
fills; `cause_category` keeps its dataclass default). -/
structure SSORecord where
  sso_id : Option String := none
  utility_id : Option String := none
  utility_name : Option String := none
  sewer_system : Option String := none
  county : Option String := none
  location_desc : Option String := none
  date_sso_began : Option PyDateTime := none
  date_sso_stopped : Option PyDateTime := none
  volume_gallons : Option ℚ := none
  est_volume : Option String := none
  est_volume_gal : Option Int := none
  est_volume_is_range : Option Bool := none
  est_volume_range_label : Option String := none
  cause : Option String := none
  cause_category : Option String := none
  receiving_water : Option String := none
  x : Option ℚ := none
  y : Option ℚ := none
  raw : List (String × PyValue) := []
  deriving DecidableEq, Repr

/-- Python `dict.get(k)`: absent keys read as `None`. -/
def dictGetV (m : List (String × PyValue)) (k : String) : PyValue :=
  (dlookup m k).getD .none

/-- Truncation toward zero, Python `int(float(...))`. -/
def ratTrunc (q : ℚ) : Int := Int.tdiv q.num (q.den : Int)

/-- The function `simplify_permittee_name` applied to an optional name (`None` falls
through the function's initial falsiness check unchanged). -/
def simplifyOpt : Option String → Option String
  | none => none
  | some s => some (simplify_permittee_name s)

/-- The function `normalize_sso_record` from `sso_transform.py`.  The only operations that
can raise out of it are the two `parse_est_volume` calls (their unguarded
`int(...)`); every other coercion catches its exceptions, which the model
reflects by `Option`-valued helpers. -/
def normalize_sso_record (raw : List (String × PyValue)) : Except PyErr SSORecord :=
  match enrich_est_volume_fields raw with
  | .error e => .error e
  | .ok rd =>
  match parse_est_volume
      (match coerce_str (dictGetV rd "est_volume") with
       | some s => .str s
       | none => .none) with
  | .error e => .error e
  | .ok (gal0, isRange0, label0) =>
  let est_volume_value := coerce_str (dictGetV rd "est_volume")
  let gal1 :=
    match dictGetV rd "est_volume_gal" with
    | .none => gal0
    | v => match coerce_float v with
      | some q => some (ratTrunc q)
      | none => gal0
  let isRange1 : Option Bool :=
    match dictGetV rd "est_volume_is_range" with
    | .str s => some (upperStr s = "Y")
    | .none => some isRange0
    | v => some (pyTruthy v)
  let volume0 := coerce_float (dictGetV rd "volume_gallons")
  let volume :=
    match volume0, gal1 with
    | none, some n => coerce_float (.int n)
    | v, _ => v
  let utility_id := coerce_str (dictGetV rd "permit_no")
  let utility_name0 := coerce_str (pyOr (dictGetV rd "permittee") (dictGetV rd "utility_name"))
  let byName :=
    match utility_name0 with
    | some un =>
      if un ≠ "" then
        match dlookup PERMITTEE_MAP (lowerStr un) with
        | some v => some v
        | none => utility_name0
      else utility_name0
    | none => utility_name0
  let utility_name1 :=
    match utility_id with
    | some uid =>
      if uid ≠ "" then
        match dlookup PERMITTEE_MAP uid with
        | some v => some v
        | none => byName
      else byName
    | none => byName
  .ok
    { sso_id := coerce_str (dictGetV rd "sso_id")
      utility_id := utility_id
      utility_name := simplifyOpt utility_name1
      sewer_system := coerce_str (dictGetV rd "sewer_system")
      county := coerce_str (dictGetV rd "county")
      location_desc := coerce_str (pyOr (dictGetV rd "location_desc") (dictGetV rd "location"))
      date_sso_began := parse_datetime (dictGetV rd "date_sso_began")
      date_sso_stopped := parse_datetime (dictGetV rd "date_sso_stopped")
      volume_gallons := volume
      est_volume := est_volume_value
      est_volume_gal := gal1
      est_volume_is_range := isRange1
      est_volume_range_label := label0
      cause := coerce_str (dictGetV rd "cause")
      receiving_water := normalize_receiving_water_name
        (pyOr (pyOr (dictGetV rd "receiving_water") (dictGetV rd "waterbody"))
          (dictGetV rd "rec_stream"))
      x := coerce_float (dictGetV rd "x")
      y := coerce_float (dictGetV rd "y")
      raw := rd }

/-! ## `SSO_Parse.py`: deduplication and waterway disambiguation -/

/-- One parsed-PDF row, as produced by `process_pdf`.  The dict fields that
`dedupe_keep_newest` and `disambiguate_waterways` consult are carried as
typed optional fields (`r.get(k)` may be absent); `payload` stands for the
remaining extracted columns.  `_ts` is the footer submission timestamp,
totally ordered like `datetime`. -/
structure PRow where
  sso_id : Option String := none
  file_name : Option String := none
  ts : Option Nat := none
  permittee : Option String := none
  receiving_water : Option String := none
  payload : List (String × String) := []
  deriving DecidableEq, Repr

/-- Model of `_clean(r.get(k))`: missing / `None` reads as `""`, then `strip`. -/
def cleanOpt (o : Option String) : String := pyStrip (o.getD "")

/-- The dedup key of a row: the cleaned `sso_id` when non-empty, else the
synthetic `"__noid__" + cleaned file name`. -/
def dedupeKey (r : PRow) : String :=
  let sid := cleanOpt r.sso_id
  if sid = "" then "__noid__" ++ cleanOpt r.file_name else sid

/-- The replacement test of `dedupe_keep_newest`: a newly seen row beats the
stored one iff it has a timestamp and the stored one has none, or both have
one and the new one is strictly later. -/
def newWins (tsNew tsOld : Option Nat) : Bool :=
  match tsNew, tsOld with
  | some _, none => true
  | some a, some b => b < a
  | _, _ => false

/-- One iteration of the `dedupe_keep_newest` loop over the accumulating
`by_key` dict (`key` is the row's `dedupeKey`). -/
def dedupeStep (m : List (String × PRow)) (r : PRow) : List (String × PRow) :=
  match dlookup m (dedupeKey r) with
  | none => m ++ [(dedupeKey r, r)]
  | some old =>
    if newWins r.ts old.ts then
      m.map (fun p => if p.1 = dedupeKey r then (dedupeKey r, r) else p)
    else m

/-- The function `dedupe_keep_newest`: fold the rows into the `by_key` dict. -/
def dedupe_keep_newest (rows : List PRow) : List (String × PRow) :=
  rows.foldl dedupeStep []

/-- Python `dict.values()` of the dedup result. -/
def dvalues (m : List (String × PRow)) : List PRow := m.map Prod.snd

/-- The dict `UTILITY_ABBREVS`: explicit short-name overrides. -/
def UTILITY_ABBREVS : List (String × String) :=
  [ ("Baldwin County Sewer Service", "BCSS"),
    ("Baldwin County Sewer Service, LLC", "BCSS"),
    ("City of Daphne", "Daphne"),
    ("City of Fairhope", "Fairhope"),
    ("City of Spanish Fort", "Spanish Fort"),
    ("City of Foley", "Foley"),
    ("City of Robertsdale", "Robertsdale") ]

/-- First match of `re.search(r"\(([A-Z]{2,6})\)", s)`: scan left to right
for `(`, take the maximal uppercase run after it; the group matches exactly
when that run has length 2–6 and is closed by `)`. -/
def findParenAcronym : List Char → Option (List Char)
  | [] => none
  | '(' :: rest =>
    let run := rest.takeWhile isUpperAZ
    if 2 ≤ run.length ∧ run.length ≤ 6 then
      match rest.dropWhile isUpperAZ with
      | ')' :: _ => some run
      | _ => findParenAcronym rest
    else findParenAcronym rest
  | _ :: rest => findParenAcronym rest

/-- A word character for `\b` (`[A-Za-z0-9_]`). -/
def isWordChar (c : Char) : Bool :=
  (65 ≤ c.toNat && c.toNat ≤ 90) || (97 ≤ c.toNat && c.toNat ≤ 122) ||
  isDigitPy c || c = '_'

/-- Tokens of one `_WORDS_TO_STRIP` alternative: case-insensitive literal,
`\s+`, `\s*`, or the optional `s` of `utilities?`. -/
inductive WTok where
  | lit (w : String)
  | ws1
  | ws0
  | optS
  deriving Repr

/-- Match a token list at the head of `cs`, returning the remainder. -/
def matchWToks : List WTok → List Char → Option (List Char)
  | [], cs => some cs
  | .lit w :: rest, cs =>
    if (cs.take w.toList.length).map toLowerPy = w.toList.map toLowerPy ∧
        w.toList.length ≤ cs.length then
      matchWToks rest (cs.drop w.toList.length)
    else none
  | .ws1 :: rest, cs =>
    if cs.takeWhile isPyWs = ([] : List Char) then none
    else matchWToks rest (cs.dropWhile isPyWs)
  | .ws0 :: rest, cs => matchWToks rest (cs.dropWhile isPyWs)
  | .optS :: rest, cs =>
    match cs with
    | c :: cs' =>
      if toLowerPy c = 's' then
        match matchWToks rest cs' with
        | some r => some r
        | none => matchWToks rest cs
      else matchWToks rest cs
    | [] => matchWToks rest cs

/-- The ordered alternatives of `_WORDS_TO_STRIP` (matched with `re.I`,
wrapped in `\b ... \b`). -/
def WORDS_TO_STRIP : List (List WTok) :=
  [ [.lit "city"], [.lit "town"], [.lit "village"], [.lit "county"],
    [.lit "water", .ws1, .lit "and", .ws1, .lit "sewer", .ws1, .lit "board"],
    [.lit "water", .ws1, .lit "&", .ws0, .lit "sewer", .ws1, .lit "board"],
    [.lit "utilitie", .optS, .ws1, .lit "board"],
    [.lit "utility", .ws1, .lit "board"],
    [.lit "board"], [.lit "department"], [.lit "authority"], [.lit "of"], [.lit "the"] ]

/-- Try the alternatives in order at this position; a match must also end at
a word boundary. -/
def tryStripAlts (cs : List Char) : Option (List Char) :=
  WORDS_TO_STRIP.findSome? fun alt =>
    match matchWToks alt cs with
    | some rem =>
      match rem with
      | [] => some rem
      | c :: _ => if isWordChar c then none else some rem
    | none => none

/-- The scan loop of `re.sub(_WORDS_TO_STRIP, "", s)`: at each position that
sits on a word boundary, replace the first matching alternative by nothing;
otherwise copy one character.  `fuel` bounds the iteration count (each step
consumes at least one character, so `cs.length` suffices). -/
def stripWordsScan : Nat → List Char → Bool → List Char
  | 0, cs, _ => cs
  | _ + 1, [], _ => []
  | fuel + 1, c :: rest, prevWord =>
    if ¬ prevWord then
      match tryStripAlts (c :: rest) with
      | some rem => stripWordsScan fuel rem true
      | none => c :: stripWordsScan fuel rest (isWordChar c)
    else c :: stripWordsScan fuel rest (isWordChar c)

/-- Model of `_WORDS_TO_STRIP.sub("", s)`. -/
def stripBoilerplateWords (s : String) : String :=
  String.mk (stripWordsScan (s.toList.length + 1) s.toList false)

/-- Scan of `re.sub(r"\s{2,}", " ", s)`: collapse runs of two or more
whitespace characters to a single space (single whitespace characters stay).
`fuel` bounds the iteration count. -/
def collapseWsF : Nat → List Char → List Char
  | 0, cs => cs
  | _ + 1, [] => []
  | fuel + 1, c :: rest =>
    if isPyWs c then
      if rest.takeWhile isPyWs ≠ ([] : List Char) then
        ' ' :: collapseWsF fuel (rest.dropWhile isPyWs)
      else c :: collapseWsF fuel rest
    else c :: collapseWsF fuel rest

def collapseWs (l : List Char) : List Char := collapseWsF (l.length + 1) l

/-- Python `str.split()` with no argument: split on whitespace runs,
discarding empty pieces.  `fuel` bounds the iteration count. -/
def pySplitWsF : Nat → List Char → List (List Char)
  | 0, _ => []
  | _ + 1, [] => []
  | fuel + 1, c :: rest =>
    if isPyWs c then pySplitWsF fuel rest
    else
      (c :: rest.takeWhile (fun d => ¬ isPyWs d)) ::
        pySplitWsF fuel (rest.dropWhile (fun d => ¬ isPyWs d))

def pySplitWs (l : List Char) : List (List Char) := pySplitWsF (l.length + 1) l

/-- The function `utility_short_name` from `SSO_Parse.py`. -/
def utility_short_name (permittee : String) : String :=
  let p := pyStrip permittee
  if p = "" then ""
  else
    match UTILITY_ABBREVS.find? (fun kv => lowerStr p = lowerStr kv.1) with
    | some kv => kv.2
    | none =>
      match findParenAcronym p.toList with
      | some run => String.mk run
      | none =>
        let core := pyStrip (stripBoilerplateWords p)
        let core := String.mk (collapseWs core.toList)
        let parts := pySplitWs core.toList
        if 2 ≤ parts.length then
          String.intercalate " " ((parts.drop (parts.length - 2)).map String.mk)
        else if core ≠ "" then core
        else p

/-- The owners index of `disambiguate_waterways`: waterway name →
set of cleaned permittees (modelled as a duplicate-free list). -/
def addOwner (owners : List String) (o : String) : List String :=
  if o ∈ owners then owners else owners ++ [o]

def indexStep (idx : List (String × List String)) (r : PRow) : List (String × List String) :=
  if cleanOpt r.receiving_water = "" then idx
  else
    match dlookup idx (cleanOpt r.receiving_water) with
    | some owners =>
      idx.map (fun p =>
        if p.1 = cleanOpt r.receiving_water then
          (cleanOpt r.receiving_water, addOwner owners (cleanOpt r.permittee))
        else p)
    | none => idx ++ [(cleanOpt r.receiving_water, [cleanOpt r.permittee])]

def buildWaterIndex (rows : List PRow) : List (String × List String) :=
  rows.foldl indexStep []

/-- Membership in the `collisions` set: more than one distinct non-empty
permittee reported this (cleaned) waterway name. -/
def isCollision (rows : List PRow) (name : String) : Bool :=
  match dlookup (buildWaterIndex rows) name with
  | some owners => 1 < (owners.filter (· ≠ "")).dedup.length
  | none => false

/-- The function `disambiguate_waterways` (the in-place row mutation, expressed as a map
over the list; row `r` is skipped when its cleaned name is empty or not a
collision, and left as-is when no tag can be derived). -/
def disambiguate_waterways (rows : List PRow) : List PRow :=
  rows.map fun r =>
    if cleanOpt r.receiving_water = "" ∨ ¬ isCollision rows (cleanOpt r.receiving_water) then r
    else if utility_short_name (cleanOpt r.permittee) = "" then r
    else
      { r with
        receiving_water :=
          some (cleanOpt r.receiving_water ++ " - " ++ utility_short_name (cleanOpt r.permittee)) }

/-! ## Dictionary lemmas -/

theorem dlookup_cons {α : Type} (p : String × α) (t : List (String × α)) (k : String) :
    dlookup (p :: t) k = if p.1 = k then some p.2 else dlookup t k := rfl

theorem dlookup_eq_none {α : Type} {m : List (String × α)} {k : String} :
    dlookup m k = none ↔ k ∉ m.map Prod.fst := by
  induction m with
  | nil => simp [dlookup]
  | cons p t ih =>
    rw [dlookup_cons]
    simp only [List.map_cons, List.mem_cons]
    by_cases h : p.1 = k
    · simp [h]
    · rw [if_neg h, ih]
      constructor
      · intro hn
        rintro (he | hm)
        · exact h he.symm
        · exact hn hm
      · intro hn hm
        exact hn (Or.inr hm)

theorem dlookup_mem {α : Type} {m : List (String × α)} {k : String} {v : α}
    (h : dlookup m k = some v) : (k, v) ∈ m := by
  induction m with
  | nil => simp [dlookup] at h
  | cons p t ih =>
    rw [dlookup_cons] at h
    by_cases hp : p.1 = k
    · rw [if_pos hp] at h
      cases h
      exact List.mem_cons.2 (Or.inl (by rw [← hp]))
    · rw [if_neg hp] at h
      exact List.mem_cons_of_mem _ (ih h)

theorem dlookup_append_single_ne {α : Type} (m : List (String × α)) {key k : String}
    (v : α) (h : key ≠ k) : dlookup (m ++ [(key, v)]) k = dlookup m k := by
  induction m with
  | nil => simp [dlookup, h]
  | cons p t ih =>
    by_cases hp : p.1 = k <;> simp [dlookup, hp, ih]

theorem dlookup_append_single_self {α : Type} (m : List (String × α)) {k : String}
    (v : α) (h : dlookup m k = none) : dlookup (m ++ [(k, v)]) k = some v := by
  induction m with
  | nil => simp [dlookup]
  | cons p t ih =>
    by_cases hp : p.1 = k
    · simp [dlookup, hp] at h
    · simp only [dlookup, if_neg hp] at h ⊢
      exact ih h

theorem dlookup_replace_self {α : Type} {m : List (String × α)} {k : String} {old : α}
    (v : α) (h : dlookup m k = some old) :
    dlookup (m.map (fun p => if p.1 = k then (k, v) else p)) k = some v := by
  induction m with
  | nil => simp [dlookup] at h
  | cons p t ih =>
    rw [dlookup_cons] at h
    rw [List.map_cons]
    by_cases hp : p.1 = k
    · rw [if_pos hp]
      simp [dlookup_cons]
    · rw [if_neg hp] at h
      rw [if_neg hp, dlookup_cons, if_neg hp]
      exact ih h

theorem dlookup_replace_ne {α : Type} (m : List (String × α)) {key k : String}
    (v : α) (h : key ≠ k) :
    dlookup (m.map (fun p => if p.1 = key then (key, v) else p)) k = dlookup m k := by
  induction m with
  | nil => simp [dlookup]
  | cons p t ih =>
    rw [List.map_cons, dlookup_cons]
    by_cases hp : p.1 = key
    · have hpk : ¬ p.1 = k := by rw [hp]; exact h
      rw [if_pos hp, dlookup_cons]
      simp only []
      rw [if_neg h, if_neg hpk]
      exact ih
    · rw [if_neg hp, dlookup_cons]
      by_cases hpk : p.1 = k
      · rw [if_pos hpk, if_pos hpk]
      · rw [if_neg hpk, if_neg hpk]
        exact ih

theorem map_fst_replace {α : Type} (m : List (String × α)) (k : String) (v : α) :
    (m.map (fun p => if p.1 = k then (k, v) else p)).map Prod.fst = m.map Prod.fst := by
  rw [List.map_map]
  apply List.map_congr_left
  intro p _
  by_cases hp : p.1 = k <;> simp [hp]

theorem dlookup_dictSet_ne {α : Type} (m : List (String × α)) {key k : String}
    (v : α) (h : key ≠ k) : dlookup (dictSet m key v) k = dlookup m k := by
  unfold dictSet
  by_cases hc : (m.map Prod.fst).contains key
  · rw [if_pos hc]
    exact dlookup_replace_ne m v h
  · rw [if_neg hc]
    exact dlookup_append_single_ne m v h

theorem dlookup_of_mem_nodup {α : Type} {m : List (String × α)}
    (h : (m.map Prod.fst).Nodup) {k : String} {v : α} (hm : (k, v) ∈ m) :
    dlookup m k = some v := by
  induction m with
  | nil => simp at hm
  | cons p t ih =>
    simp only [List.map_cons, List.nodup_cons] at h
    rcases List.mem_cons.1 hm with heq | ht
    · rw [← heq]
      simp [dlookup]
    · have hk : p.1 ≠ k := by
        intro hkk
        exact h.1 (hkk ▸ (List.mem_map.2 ⟨(k, v), ht, rfl⟩))
      simp only [dlookup, if_neg hk]
      exact ih h.2 ht

/-! ## Characterizing `dedupe_keep_newest` -/

/-- The pairwise tie-break of the dedup loop, folded left over all rows that
share one key: later rows replace the stored one exactly when `newWins`. -/
def winnerStep (acc : Option PRow) (r : PRow) : Option PRow :=
  match acc with
  | none => some r
  | some o => if newWins r.ts o.ts then some r else some o

def winner (l : List PRow) : Option PRow := l.foldl winnerStep none

theorem winner_append_one (l : List PRow) (r : PRow) :
    winner (l ++ [r]) = winnerStep (winner l) r := by
  simp [winner, List.foldl_append]

theorem foldl_winnerStep_isSome (l : List PRow) (w : PRow) :
    (l.foldl winnerStep (some w)).isSome := by
  induction l generalizing w with
  | nil => simp
  | cons r t ih =>
    simp only [List.foldl_cons]
    cases hw : winnerStep (some w) r with
    | none => simp [winnerStep] at hw; split at hw <;> simp_all
    | some w' => exact hw ▸ ih w'

theorem winner_isSome {l : List PRow} (h : l ≠ []) : (winner l).isSome := by
  cases l with
  | nil => exact absurd rfl h
  | cons r t =>
    show (List.foldl winnerStep (winnerStep none r) t).isSome
    exact foldl_winnerStep_isSome t r

theorem foldl_winnerStep_mem : ∀ (l : List PRow) (acc : Option PRow) (w : PRow),
    l.foldl winnerStep acc = some w → w ∈ l ∨ acc = some w := by
  intro l
  induction l with
  | nil => intro acc w h; right; exact h
  | cons r t ih =>
    intro acc w h
    rcases ih (winnerStep acc r) w h with hmem | hacc
    · exact Or.inl (List.mem_cons_of_mem _ hmem)
    · cases acc with
      | none =>
        simp only [winnerStep] at hacc
        cases hacc
        exact Or.inl (List.mem_cons_self _ _)
      | some o =>
        simp only [winnerStep] at hacc
        split at hacc
        · cases hacc; exact Or.inl (List.mem_cons_self _ _)
        · exact Or.inr hacc

theorem winner_mem {l : List PRow} {w : PRow} (h : winner l = some w) : w ∈ l := by
  rcases foldl_winnerStep_mem l none w h with hmem | habs
  · exact hmem
  · cases habs

/-- The central characterization: the dedup dict maps each key to the
left-fold of the tie-break over exactly the rows bearing that key. -/
theorem dlookup_dedupe (rows : List PRow) (k : String) :
    dlookup (dedupe_keep_newest rows) k = winner (rows.filter (fun r => dedupeKey r = k)) := by
  induction rows using List.reverseRecOn with
  | nil => simp [dedupe_keep_newest, winner, dlookup]
  | append_singleton l a ih =>
    have hstep : dedupe_keep_newest (l ++ [a]) = dedupeStep (dedupe_keep_newest l) a := by
      simp [dedupe_keep_newest, List.foldl_append]
    rw [hstep]
    by_cases hk : dedupeKey a = k
    · have hfilter : (l ++ [a]).filter (fun r => dedupeKey r = k) =
          l.filter (fun r => dedupeKey r = k) ++ [a] := by
        simp [List.filter_append, hk]
      rw [hfilter, winner_append_one]
      unfold dedupeStep
      rw [hk]
      cases hl : dlookup (dedupe_keep_newest l) k with
      | none =>
        rw [hl] at ih
        simp only [hl]
        rw [dlookup_append_single_self _ a hl, ← ih]
        rfl
      | some old =>
        rw [hl] at ih
        rw [← ih]
        simp only [hl, winnerStep]
        by_cases hw : newWins a.ts old.ts
        · rw [if_pos hw, if_pos hw]
          exact dlookup_replace_self a hl
        · rw [if_neg hw, if_neg hw]
          exact hl
    · have hfilter : (l ++ [a]).filter (fun r => dedupeKey r = k) =
          l.filter (fun r => dedupeKey r = k) := by
        simp [List.filter_append, hk]
      rw [hfilter, ← ih]
      unfold dedupeStep
      cases hl : dlookup (dedupe_keep_newest l) (dedupeKey a) with
      | none =>
        simp only [hl]
        exact dlookup_append_single_ne _ a hk
      | some old =>
        simp only [hl]
        by_cases hw : newWins a.ts old.ts
        · rw [if_pos hw]
          exact dlookup_replace_ne _ a hk
        · rw [if_neg hw]

theorem dedupe_key_eq : ∀ (rows : List PRow) {k : String} {r : PRow},
    (k, r) ∈ dedupe_keep_newest rows → dedupeKey r = k := by
  intro rows
  induction rows using List.reverseRecOn with
  | nil => intro k r h; simp [dedupe_keep_newest] at h
  | append_singleton l a ih =>
    intro k r h
    have hstep : dedupe_keep_newest (l ++ [a]) = dedupeStep (dedupe_keep_newest l) a := by
      simp [dedupe_keep_newest, List.foldl_append]
    rw [hstep] at h
    unfold dedupeStep at h
    cases hl : dlookup (dedupe_keep_newest l) (dedupeKey a) with
    | none =>
      simp only [hl] at h
      rcases List.mem_append.1 h with hm | hm
      · exact ih hm
      · simp at hm
        rw [hm.1, hm.2]
    | some old =>
      simp only [hl] at h
      by_cases hw : newWins a.ts old.ts
      · rw [if_pos hw] at h
        rcases List.mem_map.1 h with ⟨p, hp, hpe⟩
        by_cases hp1 : p.1 = dedupeKey a
        · rw [if_pos hp1] at hpe
          cases hpe
          rfl
        · rw [if_neg hp1] at hpe
          exact ih (hpe ▸ hp)
      · rw [if_neg hw] at h
        exact ih h

theorem dedupe_keys_nodup (rows : List PRow) :
    ((dedupe_keep_newest rows).map Prod.fst).Nodup := by
  induction rows using List.reverseRecOn with
  | nil => simp [dedupe_keep_newest]
  | append_singleton l a ih =>
    have hstep : dedupe_keep_newest (l ++ [a]) = dedupeStep (dedupe_keep_newest l) a := by
      simp [dedupe_keep_newest, List.foldl_append]
    rw [hstep]
    unfold dedupeStep
    cases hl : dlookup (dedupe_keep_newest l) (dedupeKey a) with
    | none =>
      have hnot : dedupeKey a ∉ (dedupe_keep_newest l).map Prod.fst := dlookup_eq_none.1 hl
      simp only [hl]
      simp [List.nodup_append, ih, hnot]
    | some old =>
      simp only [hl]
      by_cases hw : newWins a.ts old.ts
      · rw [if_pos hw, map_fst_replace]
        exact ih
      · rw [if_neg hw]
        exact ih

theorem mem_dvalues_iff {m : List (String × PRow)} {r : PRow} :
    r ∈ dvalues m ↔ ∃ k, (k, r) ∈ m := by
  constructor
  · intro h
    rcases List.mem_map.1 h with ⟨p, hp, hpe⟩
    exact ⟨p.1, by rw [← hpe]; exact hp⟩
  · intro ⟨k, hk⟩
    exact List.mem_map.2 ⟨(k, r), hk, rfl⟩

theorem mem_dvalues_lookup (rows : List PRow) {r : PRow}
    (h : r ∈ dvalues (dedupe_keep_newest rows)) :
    dlookup (dedupe_keep_newest rows) (dedupeKey r) = some r := by
  rcases mem_dvalues_iff.1 h with ⟨k, hk⟩
  have hkey := dedupe_key_eq rows hk
  rw [hkey]
  exact dlookup_of_mem_nodup (dedupe_keys_nodup rows) hk

theorem dedupe_of_nodup_keys : ∀ (l : List PRow), (l.map dedupeKey).Nodup →
    dedupe_keep_newest l = l.map (fun r => (dedupeKey r, r)) := by
  intro l
  induction l using List.reverseRecOn with
  | nil => intro _; simp [dedupe_keep_newest]
  | append_singleton t a ih =>
    intro h
    simp only [List.map_append, List.map_cons, List.map_nil, List.nodup_append] at h
    have hstep : dedupe_keep_newest (t ++ [a]) = dedupeStep (dedupe_keep_newest t) a := by
      simp [dedupe_keep_newest, List.foldl_append]
    rw [hstep, ih h.1]
    unfold dedupeStep
    have hnone : dlookup (t.map (fun r => (dedupeKey r, r))) (dedupeKey a) = none := by
      apply dlookup_eq_none.2
      intro hmem
      rw [List.map_map] at hmem
      have : dedupeKey a ∈ t.map dedupeKey := by
        simpa using hmem
      rcases h with ⟨_, _, hdisj⟩
      exact hdisj this (by simp)
    simp only [hnone]
    simp

theorem strAppend_left_cancel {a b c : String} (h : a ++ b = a ++ c) : b = c := by
  have hd := congrArg String.data h
  simp only [String.data_append] at hd
  exact congrArg String.mk (List.append_cancel_left hd)

theorem isPrefixOf_append (l s : List Char) : List.isPrefixOf l (l ++ s) = true := by
  induction l with
  | nil => simp
  | cons a t ih => simp [List.isPrefixOf, ih]

theorem strHasPre_append (p s : String) : strHasPre p (p ++ s) = true := by
  unfold strHasPre
  have : (p ++ s).toList = p.toList ++ s.toList := by
    simp [String.toList, String.data_append]
  rw [this]
  exact isPrefixOf_append _ _

theorem dedupeKey_of_noid {r : PRow} (h : cleanOpt r.sso_id = "") :
    dedupeKey r = "__noid__" ++ cleanOpt r.file_name := by
  unfold dedupeKey
  rw [h]
  rfl

theorem dedupeKey_of_id {r : PRow} (h : cleanOpt r.sso_id ≠ "") :
    dedupeKey r = cleanOpt r.sso_id := by
  unfold dedupeKey
  rw [if_neg h]

/-- The tie-break rule exactly as the specification phrases it: the later
footer timestamp wins, a present timestamp beats an absent one, and with no
timestamps (or no strictly later one) the first-seen record is kept. -/
def specTiebreakWinner (r1 r2 : PRow) : PRow :=
  match r1.ts, r2.ts with
  | none, some _ => r2
  | some t1, some t2 => if t1 < t2 then r2 else r1
  | _, _ => r1

/-- C4: for a batch in which exactly two records carry the shared non-empty
report id `s`, the dedup output at `s` is the record selected by the spec's
tie-break rule, and the losing duplicate appears nowhere in the output. -/
theorem dedupe_pair_tiebreak :
    ∀ (rows : List PRow) (r1 r2 : PRow) (s : String),
      s ≠ "" →
      cleanOpt r1.sso_id = s → cleanOpt r2.sso_id = s →
      rows.filter (fun r => dedupeKey r = s) = [r1, r2] →
      dlookup (dedupe_keep_newest rows) s = some (specTiebreakWinner r1 r2) ∧
      ∀ r ∈ rows, cleanOpt r.sso_id = s → r ≠ specTiebreakWinner r1 r2 →
        r ∉ dvalues (dedupe_keep_newest rows) := by
  intro rows r1 r2 s hs h1 h2 hfilter
  have hwin : winner (rows.filter (fun r => dedupeKey r = s)) = some (specTiebreakWinner r1 r2) := by
    rw [hfilter]
    show winnerStep (winnerStep none r1) r2 = _
    simp only [winnerStep]
    cases ht1 : r1.ts with
    | none =>
      cases ht2 : r2.ts with
      | none => simp [newWins, specTiebreakWinner, ht1, ht2]
      | some t2 => simp [newWins, specTiebreakWinner, ht1, ht2]
    | some t1 =>
      cases ht2 : r2.ts with
      | none => simp [newWins, specTiebreakWinner, ht1, ht2]
      | some t2 =>
        simp only [newWins, specTiebreakWinner, ht1, ht2]
        by_cases hlt : t1 < t2
        · simp [hlt]
        · simp [hlt]
  have hlook : dlookup (dedupe_keep_newest rows) s = some (specTiebreakWinner r1 r2) := by
    rw [dlookup_dedupe, hwin]
  refine ⟨hlook, ?_⟩
  intro r _ hrs hrne hmem
  have hkey : dedupeKey r = s := by
    rw [dedupeKey_of_id (by rw [hrs]; exact hs), hrs]
  have hlr := mem_dvalues_lookup rows hmem
  rw [hkey, hlook] at hlr
  exact hrne (Option.some.inj hlr).symm

def C4row1 : PRow := { sso_id := some "SSO-7", ts := some 1 }
def C4row2 : PRow := { sso_id := some "SSO-7", ts := some 2, payload := [("version", "2")] }

/-- C4 witness: with footer timestamps 1 < 2, only the later version is kept. -/
theorem dedupe_pair_tiebreak_witness :
    dlookup (dedupe_keep_newest [C4row1, C4row2]) "SSO-7" = some C4row2 := by
  have h := (dedupe_pair_tiebreak [C4row1, C4row2] C4row1 C4row2 "SSO-7"
    (by decide) (by decide) (by decide) (by decide)).1
  rw [h]
  decide

/-- C10: when both duplicates carry the same footer timestamp, the strict
`ts_new > ts_old` comparison fails, so the first-seen record is kept and the
later one is discarded. -/
theorem dedupe_equal_ts_first_wins :
    ∀ (rows : List PRow) (r1 r2 : PRow) (s : String) (t : Nat),
      s ≠ "" →
      cleanOpt r1.sso_id = s → cleanOpt r2.sso_id = s →
      r1.ts = some t → r2.ts = some t →
      rows.filter (fun r => dedupeKey r = s) = [r1, r2] →
      dlookup (dedupe_keep_newest rows) s = some r1 ∧
        (r2 ≠ r1 → r2 ∉ dvalues (dedupe_keep_newest rows)) := by
  intro rows r1 r2 s t hs h1 h2 ht1 ht2 hfilter
  have hlook : dlookup (dedupe_keep_newest rows) s = some r1 := by
    rw [dlookup_dedupe, hfilter]
    show winnerStep (winnerStep none r1) r2 = _
    simp only [winnerStep, newWins, ht1, ht2]
    simp
  refine ⟨hlook, ?_⟩
  intro hne hmem
  have hkey : dedupeKey r2 = s := by
    rw [dedupeKey_of_id (by rw [h2]; exact hs), h2]
  have hlr := mem_dvalues_lookup rows hmem
  rw [hkey, hlook] at hlr
  exact hne (Option.some.inj hlr).symm

def C10row1 : PRow := { sso_id := some "SSO-8", ts := some 5, payload := [("version", "first")] }
def C10row2 : PRow := { sso_id := some "SSO-8", ts := some 5, payload := [("version", "second")] }

/-- C10 witness: equal timestamps keep the first-seen row and drop the other. -/
theorem dedupe_equal_ts_first_wins_witness :
    dlookup (dedupe_keep_newest [C10row1, C10row2]) "SSO-8" = some C10row1 ∧
      C10row2 ∉ dvalues (dedupe_keep_newest [C10row1, C10row2]) := by
  have h := dedupe_equal_ts_first_wins [C10row1, C10row2] C10row1 C10row2 "SSO-8" 5
    (by decide) (by decide) (by decide) (by decide) (by decide) (by decide)
  exact ⟨h.1, h.2 (by decide)⟩

/-- C9: deduplication is idempotent — rerunning it on its own value list
reproduces the same keyed output exactly. -/
theorem dedupe_idempotent (rows : List PRow) :
    dedupe_keep_newest (dvalues (dedupe_keep_newest rows)) = dedupe_keep_newest rows := by
  have hkeys : (dvalues (dedupe_keep_newest rows)).map dedupeKey
      = (dedupe_keep_newest rows).map Prod.fst := by
    unfold dvalues
    rw [List.map_map]
    apply List.map_congr_left
    intro p hp
    exact dedupe_key_eq rows (show (p.1, p.2) ∈ _ from hp)
  have hnodup : ((dvalues (dedupe_keep_newest rows)).map dedupeKey).Nodup := by
    rw [hkeys]
    exact dedupe_keys_nodup rows
  rw [dedupe_of_nodup_keys _ hnodup]
  unfold dvalues
  rw [List.map_map]
  have hpt : ∀ p ∈ dedupe_keep_newest rows,
      ((fun r => (dedupeKey r, r)) ∘ Prod.snd) p = id p := by
    intro p hp
    have h := dedupe_key_eq rows (show (p.1, p.2) ∈ _ from hp)
    show (dedupeKey p.2, p.2) = p
    rw [h]
  rw [List.map_congr_left hpt, List.map_id]

/-- C8 (amended): id-less records with *distinct* cleaned source filenames
are kept under distinct synthetic keys, each key holding an id-less record
with that filename — provided no genuine report id begins with the reserved
`"__noid__"` marker (true of the extractor, which only produces `SSO-…` ids). -/
theorem dedupe_noid_rows_distinct :
    ∀ (rows : List PRow) (r1 r2 : PRow),
      (∀ r ∈ rows, strHasPre "__noid__" (cleanOpt r.sso_id) = false) →
      r1 ∈ rows → r2 ∈ rows →
      cleanOpt r1.sso_id = "" → cleanOpt r2.sso_id = "" →
      cleanOpt r1.file_name ≠ cleanOpt r2.file_name →
      dedupeKey r1 ≠ dedupeKey r2 ∧
      (∃ w1, dlookup (dedupe_keep_newest rows) (dedupeKey r1) = some w1 ∧
        cleanOpt w1.sso_id = "" ∧ cleanOpt w1.file_name = cleanOpt r1.file_name) ∧
      (∃ w2, dlookup (dedupe_keep_newest rows) (dedupeKey r2) = some w2 ∧
        cleanOpt w2.sso_id = "" ∧ cleanOpt w2.file_name = cleanOpt r2.file_name) := by
  intro rows r1 r2 hnoid hm1 hm2 he1 he2 hfiles
  have main : ∀ (r : PRow), r ∈ rows → cleanOpt r.sso_id = "" →
      ∃ w, dlookup (dedupe_keep_newest rows) (dedupeKey r) = some w ∧
        cleanOpt w.sso_id = "" ∧ cleanOpt w.file_name = cleanOpt r.file_name := by
    intro r hr hre
    rw [dlookup_dedupe]
    have hfil : r ∈ rows.filter (fun x => dedupeKey x = dedupeKey r) :=
      List.mem_filter.2 ⟨hr, by simp⟩
    obtain ⟨w, hw⟩ := Option.isSome_iff_exists.1 (winner_isSome (List.ne_nil_of_mem hfil))
    have hwmem := winner_mem hw
    have hwrow : w ∈ rows := (List.mem_filter.1 hwmem).1
    have hwkey : dedupeKey w = dedupeKey r := by
      have := (List.mem_filter.1 hwmem).2
      simpa using this
    have hws : cleanOpt w.sso_id = "" := by
      by_contra hws
      have hk := dedupeKey_of_id hws
      have : strHasPre "__noid__" (cleanOpt w.sso_id) = true := by
        rw [← hk, hwkey, dedupeKey_of_noid hre]
        exact strHasPre_append _ _
      rw [hnoid w hwrow] at this
      cases this
    refine ⟨w, hw, hws, ?_⟩
    have := hwkey
    rw [dedupeKey_of_noid hws, dedupeKey_of_noid hre] at this
    exact strAppend_left_cancel this
  have hkne : dedupeKey r1 ≠ dedupeKey r2 := by
    rw [dedupeKey_of_noid he1, dedupeKey_of_noid he2]
    intro h
    exact hfiles (strAppend_left_cancel h)
  exact ⟨hkne, main r1 hm1 he1, main r2 hm2 he2⟩

def C8rowX : PRow := { file_name := some "x.pdf" }
def C8rowY : PRow := { file_name := some "y.pdf" }

/-- C8 witness: two id-less rows with distinct filenames each survive under
their own synthetic key. -/
theorem dedupe_noid_rows_distinct_witness :
    dedupeKey C8rowX ≠ dedupeKey C8rowY ∧
      (∃ w1, dlookup (dedupe_keep_newest [C8rowX, C8rowY]) (dedupeKey C8rowX) = some w1 ∧
        cleanOpt w1.sso_id = "" ∧ cleanOpt w1.file_name = cleanOpt C8rowX.file_name) ∧
      (∃ w2, dlookup (dedupe_keep_newest [C8rowX, C8rowY]) (dedupeKey C8rowY) = some w2 ∧
        cleanOpt w2.sso_id = "" ∧ cleanOpt w2.file_name = cleanOpt C8rowY.file_name) :=
  dedupe_noid_rows_distinct [C8rowX, C8rowY] C8rowX C8rowY (by decide)
    (by simp) (by simp) (by decide) (by decide) (by decide)

def C8rowA : PRow := { file_name := some "report.pdf", payload := [("version", "A")] }
def C8rowB : PRow := { file_name := some "report.pdf", payload := [("version", "B")] }

/-- C8 counterexample: two *distinct* id-less rows that share a source
filename collapse to one output record, so "two distinct id-less documents
always yield two distinct output records" fails as stated. -/
theorem dedupe_noid_same_file_merges :
    C8rowA ≠ C8rowB ∧ cleanOpt C8rowA.sso_id = "" ∧ cleanOpt C8rowB.sso_id = "" ∧
      dvalues (dedupe_keep_newest [C8rowA, C8rowB]) = [C8rowA] := by
  decide

/-! ## Characterizing waterway collisions -/

theorem mem_addOwner {owners : List String} {p o : String} :
    o ∈ addOwner owners p ↔ o ∈ owners ∨ o = p := by
  unfold addOwner
  by_cases h : p ∈ owners
  · rw [if_pos h]
    constructor
    · exact Or.inl
    · rintro (ho | rfl)
      · exact ho
      · exact h
  · rw [if_neg h]
    simp

/-- The owners stored under `name` in the waterway index are exactly the
cleaned permittees of the rows whose cleaned receiving water is `name`. -/
theorem buildWaterIndex_owners : ∀ (rows : List PRow) (name o : String),
    (∃ owners, dlookup (buildWaterIndex rows) name = some owners ∧ o ∈ owners) ↔
      (name ≠ "" ∧ ∃ r ∈ rows, cleanOpt r.receiving_water = name ∧ cleanOpt r.permittee = o) := by
  intro rows
  induction rows using List.reverseRecOn with
  | nil =>
    intro name o
    simp [buildWaterIndex, dlookup]
  | append_singleton l a ih =>
    intro name o
    have hstep : buildWaterIndex (l ++ [a]) = indexStep (buildWaterIndex l) a := by
      simp [buildWaterIndex, List.foldl_append]
    rw [hstep]
    unfold indexStep
    by_cases hna : cleanOpt a.receiving_water = ""
    · rw [if_pos hna, ih]
      constructor
      · rintro ⟨hne, r, hr, hrn, hrp⟩
        exact ⟨hne, r, List.mem_append_left _ hr, hrn, hrp⟩
      · rintro ⟨hne, r, hr, hrn, hrp⟩
        rcases List.mem_append.1 hr with hrl | hra
        · exact ⟨hne, r, hrl, hrn, hrp⟩
        · simp at hra
          rw [hra] at hrn
          exact absurd (hrn.symm.trans hna) hne
    · rw [if_neg hna]
      cases hidx : dlookup (buildWaterIndex l) (cleanOpt a.receiving_water) with
      | some owners =>
        by_cases hname : name = cleanOpt a.receiving_water
        · subst hname
          constructor
          · rintro ⟨ow, how, hoow⟩
            rw [dlookup_replace_self _ hidx] at how
            cases how
            rcases mem_addOwner.1 hoow with hold | hnew
            · rcases (ih _ o).1 ⟨owners, hidx, hold⟩ with ⟨hne, r, hr, hrn, hrp⟩
              exact ⟨hne, r, List.mem_append_left _ hr, hrn, hrp⟩
            · exact ⟨hna, a, List.mem_append_right _ (by simp), rfl, hnew.symm⟩
          · rintro ⟨hne, r, hr, hrn, hrp⟩
            refine ⟨addOwner owners (cleanOpt a.permittee),
              dlookup_replace_self _ hidx, ?_⟩
            rcases List.mem_append.1 hr with hrl | hra
            · exact mem_addOwner.2 (Or.inl
                (by
                  rcases (ih _ o).2 ⟨hne, r, hrl, hrn, hrp⟩ with ⟨ow, how, hoow⟩
                  rw [hidx] at how
                  cases how
                  exact hoow))
            · simp at hra
              rw [hra] at hrp
              exact mem_addOwner.2 (Or.inr hrp.symm)
        · constructor
          · rintro ⟨ow, how, hoow⟩
            rw [dlookup_replace_ne _ _ (fun h => hname h.symm)] at how
            rcases (ih name o).1 ⟨ow, how, hoow⟩ with ⟨hne, r, hr, hrn, hrp⟩
            exact ⟨hne, r, List.mem_append_left _ hr, hrn, hrp⟩
          · rintro ⟨hne, r, hr, hrn, hrp⟩
            rcases List.mem_append.1 hr with hrl | hra
            · rcases (ih name o).2 ⟨hne, r, hrl, hrn, hrp⟩ with ⟨ow, how, hoow⟩
              exact ⟨ow, by
                rw [dlookup_replace_ne _ _ (fun h => hname h.symm)]
                exact how, hoow⟩
            · simp at hra
              rw [hra] at hrn
              exact absurd hrn.symm hname
      | none =>
        by_cases hname : name = cleanOpt a.receiving_water
        · subst hname
          constructor
          · rintro ⟨ow, how, hoow⟩
            rw [dlookup_append_single_self _ _ hidx] at how
            cases how
            simp at hoow
            exact ⟨hna, a, List.mem_append_right _ (by simp), rfl, hoow.symm⟩
          · rintro ⟨hne, r, hr, hrn, hrp⟩
            refine ⟨[cleanOpt a.permittee], dlookup_append_single_self _ _ hidx, ?_⟩
            rcases List.mem_append.1 hr with hrl | hra
            · rcases (ih _ o).2 ⟨hne, r, hrl, hrn, hrp⟩ with ⟨ow, how, hoow⟩
              rw [hidx] at how
              cases how
            · simp at hra
              rw [hra] at hrp
              simp [hrp]
        · have hlk : ∀ ow,
              dlookup (buildWaterIndex l ++ [(cleanOpt a.receiving_water, [cleanOpt a.permittee])]) name = ow ↔
              dlookup (buildWaterIndex l) name = ow := by
            intro ow
            rw [dlookup_append_single_ne _ _ (fun h => hname h.symm)]
          constructor
          · rintro ⟨ow, how, hoow⟩
            rcases (ih name o).1 ⟨ow, (hlk _).1 how, hoow⟩ with ⟨hne, r, hr, hrn, hrp⟩
            exact ⟨hne, r, List.mem_append_left _ hr, hrn, hrp⟩
          · rintro ⟨hne, r, hr, hrn, hrp⟩
            rcases List.mem_append.1 hr with hrl | hra
            · rcases (ih name o).2 ⟨hne, r, hrl, hrn, hrp⟩ with ⟨ow, how, hoow⟩
              exact ⟨ow, (hlk _).2 how, hoow⟩
            · simp at hra
              rw [hra] at hrn
              exact absurd hrn.symm hname

theorem one_lt_dedup_filter_iff (l : List String) :
    1 < ((l.filter (· ≠ "")).dedup.length) ↔
      ∃ a ∈ l, ∃ b ∈ l, a ≠ "" ∧ b ≠ "" ∧ a ≠ b := by
  rw [← List.card_toFinset, Finset.one_lt_card]
  constructor
  · rintro ⟨a, ha, b, hb, hab⟩
    rw [List.mem_toFinset, List.mem_filter] at ha hb
    exact ⟨a, ha.1, b, hb.1, by simpa using ha.2, by simpa using hb.2, hab⟩
  · rintro ⟨a, ha, b, hb, hane, hbne, hab⟩
    refine ⟨a, ?_, b, ?_, hab⟩ <;> rw [List.mem_toFinset, List.mem_filter]
    · exact ⟨ha, by simpa using hane⟩
    · exact ⟨hb, by simpa using hbne⟩

/-- Holds when `name` is reported by more than one distinct non-empty organization. -/
def CollidesIn (rows : List PRow) (name : String) : Prop :=
  name ≠ "" ∧ ∃ r1 ∈ rows, ∃ r2 ∈ rows,
    cleanOpt r1.receiving_water = name ∧ cleanOpt r2.receiving_water = name ∧
    cleanOpt r1.permittee ≠ "" ∧ cleanOpt r2.permittee ≠ "" ∧
    cleanOpt r1.permittee ≠ cleanOpt r2.permittee

theorem isCollision_iff (rows : List PRow) (name : String) :
    isCollision rows name = true ↔ CollidesIn rows name := by
  unfold isCollision CollidesIn
  cases hidx : dlookup (buildWaterIndex rows) name with
  | none =>
    simp only []
    constructor
    · intro h
      cases h
    · rintro ⟨hne, r1, hr1, _, _, hn1, _, hp1, _, _⟩
      rcases (buildWaterIndex_owners rows name (cleanOpt r1.permittee)).2
        ⟨hne, r1, hr1, hn1, rfl⟩ with ⟨ow, how, _⟩
      rw [hidx] at how
      cases how
  | some owners =>
    simp only [decide_eq_true_eq]
    rw [one_lt_dedup_filter_iff]
    have hmem : ∀ o, o ∈ owners ↔
        (name ≠ "" ∧ ∃ r ∈ rows, cleanOpt r.receiving_water = name ∧ cleanOpt r.permittee = o) := by
      intro o
      rw [← buildWaterIndex_owners]
      constructor
      · intro h
        exact ⟨owners, hidx, h⟩
      · rintro ⟨ow, how, hoow⟩
        rw [hidx] at how
        cases how
        exact hoow
    constructor
    · rintro ⟨a, ha, b, hb, hane, hbne, hab⟩
      rcases (hmem a).1 ha with ⟨hne, r1, hr1, hn1, hp1⟩
      rcases (hmem b).1 hb with ⟨-, r2, hr2, hn2, hp2⟩
      exact ⟨hne, r1, hr1, r2, hr2, hn1, hn2, hp1 ▸ hane, hp2 ▸ hbne,
        by rw [hp1, hp2]; exact hab⟩
    · rintro ⟨hne, r1, hr1, r2, hr2, hn1, hn2, hp1, hp2, hpne⟩
      exact ⟨cleanOpt r1.permittee, (hmem _).2 ⟨hne, r1, hr1, hn1, rfl⟩,
        cleanOpt r2.permittee, (hmem _).2 ⟨hne, r2, hr2, hn2, rfl⟩,
        hp1, hp2, hpne⟩

/-- C6: in any batch, a record whose cleaned receiving water is shared by two
distinct non-empty organizations (and whose own tag is derivable) is rewritten
to `"<name> - <tag>"`; a record whose name is not shared, or whose tag cannot
be derived, is emitted unchanged. -/
theorem disambiguate_waterways_spec :
    ∀ (rows : List PRow) (i : Nat) (r : PRow), rows[i]? = some r →
      ((CollidesIn rows (cleanOpt r.receiving_water) ∧
          utility_short_name (cleanOpt r.permittee) ≠ "") →
        (disambiguate_waterways rows)[i]? =
          some { r with
                 receiving_water :=
                   some (cleanOpt r.receiving_water ++ " - " ++
                     utility_short_name (cleanOpt r.permittee)) }) ∧
      ((¬ CollidesIn rows (cleanOpt r.receiving_water) ∨
          utility_short_name (cleanOpt r.permittee) = "") →
        (disambiguate_waterways rows)[i]? = some r) := by
  intro rows i r hi
  unfold disambiguate_waterways
  rw [List.getElem?_map, hi]
  constructor
  · rintro ⟨hcol, htag⟩
    have hc : isCollision rows (cleanOpt r.receiving_water) = true :=
      (isCollision_iff rows _).2 hcol
    have hcond : ¬ (cleanOpt r.receiving_water = "" ∨
        ¬ isCollision rows (cleanOpt r.receiving_water)) := by
      rintro (hemp | hnc)
      · exact hcol.1 hemp
      · exact hnc hc
    simp only [Option.map_some']
    rw [if_neg hcond, if_neg htag]
  · rintro (hnc | htag)
    · simp only [Option.map_some']
      by_cases hemp : cleanOpt r.receiving_water = ""
      · rw [if_pos (Or.inl hemp)]
      · have : ¬ isCollision rows (cleanOpt r.receiving_water) := by
          intro hc
          exact hnc ((isCollision_iff rows _).1 hc)
        rw [if_pos (Or.inr this)]
    · simp only [Option.map_some']
      by_cases hcond : cleanOpt r.receiving_water = "" ∨
          ¬ isCollision rows (cleanOpt r.receiving_water)
      · rw [if_pos hcond]
      · rw [if_neg hcond, if_pos htag]

def C6rowA : PRow :=
  { sso_id := some "SSO-1", permittee := some "City of Daphne",
    receiving_water := some "Cypress Creek" }
def C6rowB : PRow :=
  { sso_id := some "SSO-2", permittee := some "City of Foley",
    receiving_water := some "Cypress Creek" }
def C6rowC : PRow :=
  { sso_id := some "SSO-3", permittee := some "City of Fairhope",
    receiving_water := some "Unique Bayou" }

/-- C6 witness: the spec's example — two organizations share `Cypress Creek`
and both get tagged, while `Unique Bayou` is left unchanged. -/
theorem disambiguate_waterways_spec_witness :
    (disambiguate_waterways [C6rowA, C6rowB, C6rowC])[0]? =
      some { C6rowA with receiving_water := some "Cypress Creek - Daphne" } ∧
    (disambiguate_waterways [C6rowA, C6rowB, C6rowC])[2]? = some C6rowC := by
  constructor
  · have h := (disambiguate_waterways_spec [C6rowA, C6rowB, C6rowC] 0 C6rowA rfl).1
      ⟨⟨by decide, C6rowA, by simp, C6rowB, by simp, by decide, by decide,
        by decide, by decide, by decide⟩, by decide⟩
    rw [h]
    decide
  · exact (disambiguate_waterways_spec [C6rowA, C6rowB, C6rowC] 2 C6rowC rfl).2
      (Or.inl (by unfold CollidesIn; decide))

/-! ## Volume claims -/

theorem pyStrip_sublist (s : String) : (pyStrip s).toList.Sublist s.toList := by
  show ((((s.toList.dropWhile isPyWs).reverse.dropWhile isPyWs).reverse)).Sublist s.toList
  have h2 : (((s.toList.dropWhile isPyWs).reverse.dropWhile isPyWs).reverse).Sublist
      (((s.toList.dropWhile isPyWs).reverse).reverse) :=
    List.Sublist.reverse (List.dropWhile_sublist _)
  rw [List.reverse_reverse] at h2
  exact h2.trans (List.dropWhile_sublist _)

theorem toLowerPy_of_numlike {c : Char} (h : isDigitPy c = true ∨ c = ',') :
    toLowerPy c = c := by
  unfold toLowerPy
  rcases h with hd | rfl
  · simp only [isDigitPy, Bool.and_eq_true, decide_eq_true_eq] at hd
    rw [if_neg]
    rintro ⟨h1, _⟩
    omega
  · exact if_neg (by decide)

theorem normalizeRawValue_chars {s : String}
    (hall : s.toList.all isNumLike = true) :
    ∀ c ∈ (normalizeRawValue s).toList, isDigitPy c = true ∨ c = ',' := by
  intro c hc
  have hc' : c ∈ (s.toList.filter (fun c => ¬ isPyWs c)).map toLowerPy := hc
  rcases List.mem_map.1 hc' with ⟨c0, hc0, rfl⟩
  rcases List.mem_filter.1 hc0 with ⟨hc0s, hc0w⟩
  rw [List.all_eq_true] at hall
  have hnum := hall c0 hc0s
  simp only [isNumLike, Bool.or_eq_true, decide_eq_true_eq] at hnum
  simp only [decide_eq_true_eq] at hc0w
  rcases hnum with (hd | hcm) | hw
  · rw [toLowerPy_of_numlike (Or.inl hd)]
    exact Or.inl hd
  · rw [toLowerPy_of_numlike (Or.inr hcm)]
    exact Or.inr hcm
  · exact absurd hw hc0w

theorem bucket_keys_have_lt : ∀ e ∈ BUCKET_MAPPINGS, '<' ∈ e.1.toList := by decide

theorem findBucket_key_mem {n : String} {b : Int × Int} (h : findBucket n = some b) :
    ∃ e ∈ BUCKET_MAPPINGS, e.1.toList.IsPrefix n.toList := by
  unfold findBucket at h
  cases hd : dlookup BUCKET_MAPPINGS n with
  | some b' =>
    exact ⟨(n, b'), dlookup_mem hd, List.prefix_rfl⟩
  | none =>
    rw [hd] at h
    cases hf : BUCKET_MAPPINGS.find? (fun e => strHasPre e.1 n) with
    | none =>
      rw [hf] at h
      cases h
    | some e =>
      have hmem := List.mem_of_find?_eq_some hf
      have hpred := List.find?_some hf
      simp only [decide_eq_true_eq] at hpred
      refine ⟨e, hmem, ?_⟩
      have : List.isPrefixOf e.1.toList n.toList = true := hpred
      exact List.isPrefixOf_iff_prefix.1 this

theorem findBucket_of_numlike {s : String} (hall : s.toList.all isNumLike = true) :
    findBucket (normalizeRawValue s) = none := by
  cases hfb : findBucket (normalizeRawValue s) with
  | none => rfl
  | some b =>
    exfalso
    obtain ⟨e, he, hpre⟩ := findBucket_key_mem hfb
    have hlt : '<' ∈ e.1.toList := bucket_keys_have_lt e he
    have h2 : '<' ∈ (normalizeRawValue s).toList := hpre.subset hlt
    rcases normalizeRawValue_chars hall '<' h2 with hd | hcm
    · exact absurd hd (by decide)
    · exact absurd hcm (by decide)

/-- C1 (amended): every volume string whose normalized form hits the bucket
table (exactly or by key prefix) yields the bucket's upper bound,
`is_range = true` and the documented label; the table holds exactly the ten
bounded documented buckets with their documented labels; there is no
open-ended table entry — a `"1,000,000 < gallons"` string is served by the
numeric-token fallback, which produces the `"≥ 1,000,000"` label. -/
theorem parse_est_volume_bucket_spec :
    (∀ (s : String) (lo hi : Int),
        findBucket (normalizeRawValue (pyStrip s)) = some (lo, hi) →
        parse_est_volume (.str s) = .ok (some hi, true, some (bucketLabel lo (some hi)))) ∧
    ((BUCKET_MAPPINGS.map Prod.snd).dedup =
        [(0, 1000), (1000, 10000), (10000, 25000), (25000, 50000), (50000, 75000),
         (75000, 100000), (100000, 250000), (250000, 500000), (500000, 750000),
         (750000, 1000000)]) ∧
    ((BUCKET_MAPPINGS.map Prod.snd).dedup.map (fun b => bucketLabel b.1 (some b.2)) =
        ["0 - 1,000", "1,000 - 10,000", "10,000 - 25,000", "25,000 - 50,000",
         "50,000 - 75,000", "75,000 - 100,000", "100,000 - 250,000",
         "250,000 - 500,000", "500,000 - 750,000", "750,000 - 1,000,000"]) ∧
    parse_est_volume (.str "1,000,000 < gallons") =
      .ok (some 1000000, true, some "≥ 1,000,000") := by
  refine ⟨?_, by decide, by decide, by decide⟩
  intro s lo hi h
  have hs : pyStrip s ≠ "" := by
    intro he
    rw [he] at h
    have hnone : findBucket (normalizeRawValue "") = none := by decide
    rw [hnone] at h
    cases h
  have hnotnum : ¬ ((pyStrip s).toList.all isNumLike = true) := by
    intro hall
    rw [findBucket_of_numlike hall] at h
    cases h
  show parse_est_volume (.str s) = _
  unfold parse_est_volume
  simp only [pyStr]
  rw [if_neg hs, if_neg hnotnum, h]

/-- C1 counterexample: the bucket table holds exactly ten distinct buckets —
not eleven — and no table entry carries a `"≥"`-prefixed (open-ended) label. -/
theorem bucket_table_not_eleven :
    (BUCKET_MAPPINGS.map Prod.snd).dedup.length = 10 ∧
      ∀ e ∈ BUCKET_MAPPINGS, strHasPre "≥" (bucketLabel e.2.1 (some e.2.2)) = false := by
  decide

/-- C1 witness: a `"1,000 < gallons"` variant maps to 10,000 with the
documented `"1,000 - 10,000"` label. -/
theorem parse_est_volume_bucket_spec_witness :
    parse_est_volume (.str "1,000 < gallons") =
      .ok (some 10000, true, some "1,000 - 10,000") := by
  have h := parse_est_volume_bucket_spec.1 "1,000 < gallons" 1000 10000 (by decide)
  rw [h]
  rfl

/-- C2 (amended): a non-empty digits/commas/whitespace volume string parses
to the exact integer left after removing commas and trimming — provided that
remainder is a non-empty digit string (at least one digit, and no internal
whitespace splitting the digits); `is_range` is false and the label null. -/
theorem parse_est_volume_numeric_exact :
    ∀ s : String,
      s.toList.all isNumLike = true →
      pyStrip s ≠ "" →
      (pyStrip (stripCommas (pyStrip s))).toList ≠ [] →
      (pyStrip (stripCommas (pyStrip s))).toList.all isDigitPy = true →
      parse_est_volume (.str s) =
        .ok (some (digitsVal (pyStrip (stripCommas (pyStrip s))).toList), false, none) := by
  intro s hall hne hds hdd
  have hall' : (pyStrip s).toList.all isNumLike = true := by
    rw [List.all_eq_true] at hall ⊢
    intro c hc
    exact hall c ((pyStrip_sublist s).subset hc)
  have hint : pyInt (stripCommas (pyStrip s)) =
      .ok (digitsVal (pyStrip (stripCommas (pyStrip s))).toList) := by
    unfold pyInt
    rw [if_pos ⟨hds, hdd⟩]
  unfold parse_est_volume
  simp only [pyStr]
  rw [if_neg hne, if_pos hall', hint]

/-- C2 counterexample: `","` is a non-empty string of digits/commas/whitespace,
yet `parse_est_volume` raises `ValueError` (from `int("")`) instead of
returning an exact integer. -/
theorem parse_est_volume_raises_on_comma :
    parse_est_volume (.str ",") = .error .valueError := by
  rfl

/-- C2 witness: `"25,000"` parses to the exact integer with `is_range=false`. -/
theorem parse_est_volume_numeric_exact_witness :
    parse_est_volume (.str "25,000") = .ok (some 25000, false, none) := by
  have h := parse_est_volume_numeric_exact "25,000" (by decide) (by decide)
    (by decide) (by decide)
  rw [h]
  rfl

/-- C3: record assembly is *not* exception-free — the raw mapping
`{"est_volume": ","}` makes `normalize_sso_record` propagate the `ValueError`
raised by the unguarded `int("")` inside `parse_est_volume`. -/
theorem normalize_sso_record_raises_on_comma :
    normalize_sso_record [("est_volume", PyValue.str ",")] = .error .valueError := by
  rfl

/-! ## Canonicalization claims -/

/-- C5 counterexample: the canonicalizer has *no* acronym-in-parentheses
step — a name carrying an acronym that misses the alias table and every
boilerplate prefix comes back verbatim, not as the acronym. -/
theorem simplify_permittee_no_acronym_branch :
    simplify_permittee_name "Coastal Water Authority (CWA)" =
      "Coastal Water Authority (CWA)" ∧
    simplify_permittee_name "Coastal Water Authority (CWA)" ≠ "CWA" := by
  constructor
  · rfl
  · decide

/-- C5 (amended): the precedence of `simplify_permittee_name` — (1) an exact
case-insensitive alias-table hit returns the alias; (2) otherwise a name
containing `"Mobile Area Water and Sewer System"` (after state-suffix
stripping) becomes `"MAWSS"`; (3) otherwise the first matching boilerplate
prefix is stripped and the remainder (with a leading `The` dropped) is
wrapped as `"Utilities of <remainder>"` unless it already ends in
`"utilities"`; (4) otherwise the trimmed, state-suffix-stripped name is
returned unchanged. -/
theorem simplify_permittee_precedence :
    ∀ name : String, name ≠ "" →
      (∀ v, dlookup PERMITTEE_MAP (lowerStr (pyStrip name)) = some v →
        simplify_permittee_name name = v) ∧
      (dlookup PERMITTEE_MAP (lowerStr (pyStrip name)) = none →
        (strContains "Mobile Area Water and Sewer System"
            (stripStateSuffix (pyStrip name)) = true →
          simplify_permittee_name name = "MAWSS") ∧
        (strContains "Mobile Area Water and Sewer System"
            (stripStateSuffix (pyStrip name)) = false →
          (∀ rem, PERMITTEE_PATTERNS.findSome?
              (fun p => matchPat p (stripStateSuffix (pyStrip name)).toList) = some rem →
            simplify_permittee_name name =
              (if strHasSuf "utilities" (lowerStr (dropLeadingThe (pyStrip (String.mk rem))))
               then dropLeadingThe (pyStrip (String.mk rem))
               else "Utilities of " ++ dropLeadingThe (pyStrip (String.mk rem)))) ∧
          (PERMITTEE_PATTERNS.findSome?
              (fun p => matchPat p (stripStateSuffix (pyStrip name)).toList) = none →
            simplify_permittee_name name = stripStateSuffix (pyStrip name)))) := by
  intro name hne
  unfold simplify_permittee_name
  rw [if_neg hne]
  constructor
  · intro v hv
    rw [hv]
  · intro hnone
    simp only [hnone]
    constructor
    · intro hmaw
      rw [if_pos hmaw]
    · intro hmaw
      rw [if_neg (by rw [hmaw]; exact Bool.false_ne_true)]
      constructor
      · intro rem hrem
        simp only [hrem]
      · intro hnone2
        simp only [hnone2]

/-- C5 witness: `"City of Foley"` misses the alias table and the MAWSS
special case, matches the `City of` prefix pattern, and canonicalizes to
`"Utilities of Foley"`. -/
theorem simplify_permittee_precedence_witness :
    simplify_permittee_name "City of Foley" = "Utilities of Foley" := by
  have h := (((simplify_permittee_precedence "City of Foley" (by decide)).2
    (by decide)).2 (by decide)).1 "Foley".toList (by decide)
  rw [h]
  rfl

/-! ## The raw-payload round trip -/

/-- The field names the extraction stage captures from the ArcGIS layer and
`normalize_sso_record` consults; the three `est_volume_*` enrichment fields
are synthesized later by `enrich_est_volume_fields`, never captured. -/
def CAPTURED_FIELDS : List String :=
  ["sso_id", "permit_no", "permittee", "utility_name", "sewer_system", "county",
   "location_desc", "location", "date_sso_began", "date_sso_stopped",
   "volume_gallons", "est_volume", "cause", "receiving_water", "waterbody",
   "rec_stream", "x", "y"]

theorem captured_not_enriched :
    ∀ k ∈ CAPTURED_FIELDS,
      k ≠ "est_volume_gal" ∧ k ≠ "est_volume_is_range" ∧ k ≠ "est_volume_range_label" := by
  decide

theorem enrich_raw_lookup {m rd : List (String × PyValue)}
    (h : enrich_est_volume_fields m = .ok rd) :
    ∀ k, k ≠ "est_volume_gal" → k ≠ "est_volume_is_range" → k ≠ "est_volume_range_label" →
      dlookup rd k = dlookup m k := by
  unfold enrich_est_volume_fields at h
  cases hp : parse_est_volume ((dlookup m "est_volume").getD .none) with
  | error e =>
    simp only [hp] at h
    exact Except.noConfusion h
  | ok t =>
    obtain ⟨gal, isRange, label⟩ := t
    simp only [hp] at h
    cases h
    intro k h1 h2 h3
    rw [dlookup_dictSet_ne _ _ (Ne.symm h3), dlookup_dictSet_ne _ _ (Ne.symm h2),
      dlookup_dictSet_ne _ _ (Ne.symm h1)]

theorem normalize_raw_of_ok {m : List (String × PyValue)} {rec : SSORecord}
    (h : normalize_sso_record m = .ok rec) :
    ∃ rd, enrich_est_volume_fields m = .ok rd ∧ rec.raw = rd := by
  unfold normalize_sso_record at h
  cases hE : enrich_est_volume_fields m with
  | error e =>
    simp only [hE] at h
    exact Except.noConfusion h
  | ok rd =>
    simp only [hE] at h
    cases hP : parse_est_volume
        (match coerce_str (dictGetV rd "est_volume") with
         | some s => .str s
         | none => .none) with
    | error e =>
      simp only [hP] at h
      exact Except.noConfusion h
    | ok t =>
      obtain ⟨g0, ir0, lb0⟩ := t
      simp only [hP] at h
      cases h
      exact ⟨rd, rfl, rfl⟩

/-- C7: assembling a record from a field map holding exactly the captured
fields leaves every captured field's value in the `raw` payload unchanged —
re-deriving the field map from `raw` recovers every original value. -/
theorem normalize_raw_roundtrip :
    ∀ (m : List (String × PyValue)) (rec : SSORecord),
      (∀ k, k ∈ m.map Prod.fst ↔ k ∈ CAPTURED_FIELDS) →
      normalize_sso_record m = .ok rec →
      ∀ k, k ∈ CAPTURED_FIELDS → dlookup rec.raw k = dlookup m k := by
  intro m rec hkeys hok k hk
  obtain ⟨rd, hE, hraw⟩ := normalize_raw_of_ok hok
  rw [hraw]
  have hne := captured_not_enriched k hk
  exact enrich_raw_lookup hE k hne.1 hne.2.1 hne.2.2

def C7map : List (String × PyValue) := CAPTURED_FIELDS.map (fun k => (k, PyValue.none))

def C7rec : SSORecord :=
  { est_volume_is_range := some false
    raw := C7map ++
      [("est_volume_gal", PyValue.none), ("est_volume_is_range", PyValue.str "N"),
       ("est_volume_range_label", PyValue.none)] }

/-- C7 witness: a concrete all-fields-present map round-trips its
`est_volume` value through the assembled record's `raw` payload. -/
theorem normalize_raw_roundtrip_witness :
    dlookup C7rec.raw "est_volume" = dlookup C7map "est_volume" :=
  normalize_raw_roundtrip C7map C7rec
    (by
      intro k
      rw [show C7map.map Prod.fst = CAPTURED_FIELDS from rfl])
    (by decide) "est_volume" (by decide)

end SSO
